import Mathlib

/-!
# Verification of the Skunk Ape Adventures catalog browser (`app.js`)

Shallow embedding of the filter/match/sort/render pipeline of `app.js`.
JavaScript strings are modelled as Lean `String`s (lists of characters);
JavaScript `undefined` for an optional field is modelled as `Option.none`;
JavaScript truthiness tests are translated explicitly at each use site
(`!price` is true for a missing price and for a price of `0`; `str || d`
falls back to `d` for a missing or empty string).  Prices and quality
scores are modelled as integers (the data file holds whole-dollar,
non-negative prices).
-/

namespace SkunkApe

/-- The set of whitespace characters recognised by JavaScript's `\s`
regex class and by `String.prototype.trim` (restricted to the ASCII
range, which is all the catalog data uses). -/
def isJsSpace (c : Char) : Bool :=
  c == ' ' || c == '\t' || c == '\n' || c == '\r' || c == '\x0b' || c == '\x0c'

/-- `String.prototype.toLowerCase`, character by character (ASCII range). -/
def jsToLower (s : String) : String :=
  ⟨s.data.map Char.toLower⟩

/-- `startsWithL pat l` holds when `pat` is an initial segment of `l`. -/
def startsWithL (pat l : List Char) : Bool :=
  match pat, l with
  | [], _ => true
  | _ :: _, [] => false
  | p :: ps, c :: cs => p == c && startsWithL ps cs

/-- `containsL pat l`: scanning implementation of substring search, the
model of `String.prototype.includes`. -/
def containsL (pat : List Char) : List Char → Bool
  | [] => startsWithL pat []
  | c :: cs => startsWithL pat (c :: cs) || containsL pat cs

/-- `s.includes(sub)` from JavaScript. -/
def jsIncludes (s sub : String) : Bool :=
  containsL sub.data s.data

/-- `Array.prototype.join(' ')`: elements interleaved with single spaces. -/
def joinSp : List (List Char) → List Char
  | [] => []
  | [x] => x
  | x :: y :: rest => x ++ ' ' :: joinSp (y :: rest)

/-- Space-joining a list of strings, the model of `arr.join(' ')`. -/
def jsJoinSpace (parts : List String) : String :=
  ⟨joinSp (parts.map String.data)⟩

/-- `String.prototype.trim`: whitespace removed from both ends. -/
def jsTrim (s : String) : String :=
  ⟨((s.data.dropWhile isJsSpace).reverse.dropWhile isJsSpace).reverse⟩

/-- One listing of `tours-data.json` (§3 of the spec): every field the
code reads. Optional fields are `Option`s; `tags` defaults to the empty
list exactly as `tour.tags || []` does. -/
structure Listing where
  id : Option String := none
  name : Option String := none
  company : Option String := none
  description : Option String := none
  tags : List String := []
  price : Option Int := none
  durationText : Option String := none
  freeCancellation : Bool := false
  image : Option String := none
  bookingLink : Option String := none
  qualityScore : Option Int := none
deriving DecidableEq, Repr

/-- The fixed category → keyword table of `matchesActivity`. -/
def activityMap : List (String × List String) :=
  [("airboat", ["airboat"]),
   ("kayak", ["kayak", "paddle", "canoe"]),
   ("wildlife", ["wildlife", "gator", "alligator", "animal", "bird"]),
   ("fishing", ["fishing", "fish"]),
   ("boat-tour", ["boat tour", "boat ride"]),
   ("eco-tour", ["eco", "nature", "mangrove"]),
   ("night", ["night", "sunset", "evening"]),
   ("private", ["private", "charter"])]

/-- `matchesActivity(tour, activity)` from `app.js` lines 62–79. -/
def matchesActivity (tour : Listing) (activity : String) : Bool :=
  let tags := jsJoinSpace (tour.tags.map jsToLower)
  let name := jsToLower (tour.name.getD "")
  let keywords := (activityMap.lookup activity).getD [activity]
  keywords.any fun kw => jsIncludes tags kw || jsIncludes name kw

/-- `matchesPrice(tour, range)` from `app.js` lines 82–93.  The guard
`if (!price) return range === ''` fires when `price` is `undefined`
*or* `0` (JavaScript falsiness), which the first two branches model. -/
def matchesPrice (tour : Listing) (range : String) : Bool :=
  match tour.price with
  | none => range == ""
  | some p =>
    if p == 0 then range == ""
    else
      match range with
      | "0-50" => p ≤ 50
      | "50-100" => 50 < p && p ≤ 100
      | "100-200" => 100 < p && p ≤ 200
      | "200+" => 200 < p
      | _ => true

/-- `matchesSearch(tour, search)` from `app.js` lines 96–105.
`Array.prototype.join` renders an `undefined` element as the empty
string, hence the `getD ""` on each optional field. -/
def matchesSearch (tour : Listing) (search : String) : Bool :=
  let searchable := jsToLower (jsJoinSpace
    ([tour.name.getD "", tour.company.getD "", tour.description.getD ""] ++ tour.tags))
  jsIncludes searchable search

/-- The predicate of the `allTours.filter` callback in `applyFilters`
(`app.js` lines 45–56), already given the normalised control values. -/
def passesFilters (activity priceRange search : String) (tour : Listing) : Bool :=
  (activity == "" || matchesActivity tour activity) &&
  ((priceRange == "" || matchesPrice tour priceRange) &&
   (search == "" || matchesSearch tour search))

/-- `applyFilters` from `app.js` lines 40–59: reads the three control
values (lowercasing the activity, lowercasing and trimming the search
text) and filters the working set. -/
def applyFilters (tours : List Listing) (activityRaw priceRange searchRaw : String) :
    List Listing :=
  let activity := jsToLower activityRaw
  let search := jsTrim (jsToLower searchRaw)
  tours.filter (passesFilters activity priceRange search)

/-- `truncate(str, length)` from `app.js` lines 175–179.  `!str` is
true exactly for the empty string; `str.substring(0, length)` is
`take length`; `.trim()` removes whitespace from both ends. -/
def truncate (str : String) (length : Nat) : String :=
  if str == "" then ""
  else if str.data.length ≤ length then str
  else jsTrim ⟨str.data.take length⟩ ++ "..."

/-- Case-insensitive literal match: `matchCI pat l` returns the rest of
`l` after an initial segment that case-folds to `pat` (the pattern is
given in lowercase), or `none`. -/
def matchCI : List Char → List Char → Option (List Char)
  | [], l => some l
  | _ :: _, [] => none
  | p :: ps, c :: cs => if c.toLower == p then matchCI ps cs else none

/-- The literal part of the regex `/Duration\s*/gi`, lowercased. -/
def durationPat : List Char := "duration".data

theorem matchCI_length {pat l rest : List Char} (h : matchCI pat l = some rest) :
    rest.length + pat.length = l.length := by
  induction pat generalizing l with
  | nil => simp [matchCI] at h; simp [h]
  | cons p ps ih =>
    match l with
    | [] => simp [matchCI] at h
    | c :: cs =>
      simp only [matchCI] at h
      split at h
      · have := ih h
        simp only [List.length_cons]
        omega
      · exact absurd h (by simp)

theorem length_dropWhile_le (p : Char → Bool) (l : List Char) :
    (l.dropWhile p).length ≤ l.length := by
  induction l with
  | nil => simp [List.dropWhile]
  | cons c cs ih =>
    by_cases h : p c
    · simp only [List.dropWhile, h]
      simp only [List.length_cons]
      omega
    · simp [List.dropWhile, h]

/-- `str.replace(/Duration\s*/gi, '')`: scan left to right; at each
position, if a case-insensitive occurrence of `Duration` starts there,
drop it together with the (greedy) run of whitespace after it and
continue after the match, without rescanning; otherwise keep the
character. -/
def stripDurAll (l : List Char) : List Char :=
  match l with
  | [] => []
  | c :: cs =>
    match h : matchCI durationPat (c :: cs) with
    | some rest => stripDurAll (rest.dropWhile isJsSpace)
    | none => c :: stripDurAll cs
termination_by l.length
decreasing_by
  · have hlen := matchCI_length h
    have hdrop := length_dropWhile_le isJsSpace rest
    simp only [durationPat] at hlen
    simp only [List.length_cons] at *
    omega
  · simp

/-- `str.replace(/\n/g, ' ')`: each newline becomes one space. -/
def nlToSpace (l : List Char) : List Char :=
  l.map fun c => if c == '\n' then ' ' else c

/-- `cleanDuration(duration)` from `app.js` lines 182–184. -/
def cleanDuration (duration : String) : String :=
  jsTrim ⟨nlToSpace (stripDurAll duration.data)⟩

/-- The single-quote character (codepoint 39). -/
def apostrophe : Char := Char.ofNat 39

/-- `escapeJs(str)` from `app.js` lines 187–189: `(str || '')` with each
single quote replaced by `\'` and then each double quote by `\"`. -/
def escapeJs (str : Option String) : String :=
  let s := (str.getD "").data
  let s1 := s.flatMap fun c => if c == apostrophe then ['\\', apostrophe] else [c]
  let s2 := s1.flatMap fun c => if c == '"' then ['\\', '"'] else [c]
  ⟨s2⟩

/-- A JavaScript template-literal interpolation `${x}` of a value that
may be `undefined`: `undefined` renders as the string `undefined`. -/
def jsInterp (o : Option String) : String :=
  match o with
  | none => "undefined"
  | some s => s

/-- JavaScript `o || dflt` on an optional string: the default is taken
when the value is missing or the empty string. -/
def jsOr (o : Option String) (dflt : String) : String :=
  match o with
  | none => dflt
  | some s => if s == "" then dflt else s

/-- `createTourCard(tour)` from `app.js` lines 128–159, the template
literal transcribed verbatim (single quotes written as `\x27`). -/
def createTourCard (tour : Listing) : String :=
  let price := match tour.price with
    | none => "Check Price"
    | some p => if p == 0 then "Check Price" else "$" ++ toString p
  let tag := jsOr tour.tags.head? "Tour"
  let duration := jsOr tour.durationText ""
  let description := jsOr tour.description
    "Experience the Everglades with this local tour operator."
  let priceNum := match tour.price with
    | none => "0"
    | some p => if p == 0 then "0" else toString p
  "\n    <article class=\"tour-card\">\n      <div class=\"tour-image\">\n        <img src=\"" ++
  jsInterp tour.image ++ "\" alt=\"" ++ jsInterp tour.name ++
  "\" loading=\"lazy\">\n        <span class=\"tour-price\">" ++ price ++
  "</span>\n        <span class=\"tour-tag\">" ++ tag ++
  "</span>\n      </div>\n      <div class=\"tour-content\">\n        <h3 class=\"tour-name\">" ++
  jsInterp tour.name ++ "</h3>\n        <p class=\"tour-company\">" ++
  jsInterp tour.company ++ "</p>\n        <p class=\"tour-description\">" ++
  truncate description 100 ++
  "</p>\n        <div class=\"tour-meta\">\n          " ++
  (if duration == "" then ""
   else "<span>⏱ " ++ cleanDuration duration ++ "</span>") ++
  "\n          " ++
  (if tour.freeCancellation then "<span>✓ Free cancellation</span>" else "") ++
  "\n        </div>\n        <a href=\"" ++ jsInterp tour.bookingLink ++
  "\" \n           target=\"_blank\" \n           rel=\"noopener\" \n           class=\"tour-cta\"\n           onclick=\"trackBookingClick(\x27" ++
  escapeJs tour.name ++ "\x27, \x27" ++ jsInterp tour.id ++ "\x27, " ++ priceNum ++
  ")\">\n          Check Availability\n        </a>\n      </div>\n    </article>\n  "

/-- The fixed no-results block of `renderTours` (`app.js` lines 112–117). -/
def noResultsHtml : String :=
  "\n      <div class=\"no-results\">\n        <h3>No tours found</h3>\n        <p>Try adjusting your filters or search terms.</p>\n      </div>\n    "

/-- The quality-score descending sort of `renderTours` line 122:
`[...filteredTours].sort((a, b) => (b.qualityScore || 0) - (a.qualityScore || 0))`,
a stable sort on a fresh copy, missing scores counting as 0. -/
def sortToursByQuality (l : List Listing) : List Listing :=
  l.mergeSort fun a b => b.qualityScore.getD 0 ≤ a.qualityScore.getD 0

/-- The view produced by one call to `renderTours`: the displayed count
and the markup written into the tours container. -/
def renderView (filteredTours : List Listing) : Nat × String :=
  (filteredTours.length,
   if filteredTours.length == 0 then noResultsHtml
   else String.join ((sortToursByQuality filteredTours).map createTourCard))

/-- The module-level mutable state of `app.js`: `allTours` and
`filteredTours`. -/
structure AppState where
  allTours : List Listing
  filteredTours : List Listing
deriving DecidableEq

/-- `renderTours()` from `app.js` lines 108–125: it reads
`filteredTours`, sorts a spread copy (`[...filteredTours].sort`), and
writes only the DOM; the resulting application state is returned
alongside the produced view. -/
def renderTours (s : AppState) : AppState × (Nat × String) :=
  (s, renderView s.filteredTours)

/-!
## Debounce model

`debounce(func, wait)` (`app.js` lines 192–202) keeps a single mutable
timer handle: every call clears the pending timer and schedules a fresh
one `wait` ms later.  We model discrete time as naturals.  An event is a
pair (time, input value); the scheduled action captures the value the
input holds when the timer fires, which — since no further event occurs
before it fires — is the value at the last event before the deadline.
The single `timeout` variable is an `Option`: `none` when no recompute
is pending, `some (deadline, value)` for the unique pending one.
-/

/-- One step of the debounced handler: at event `(t, v)`, the pending
timer (if any) has already fired when its deadline is ≤ `t`; then the
event replaces the pending timer with `(t + wait, v)`. -/
def debounceStep (wait : Nat) (st : Option (Nat × String) × List (Nat × String))
    (ev : Nat × String) : Option (Nat × String) × List (Nat × String) :=
  let fired := match st.1 with
    | some (deadline, v) => if deadline ≤ ev.1 then st.2 ++ [(deadline, v)] else st.2
    | none => st.2
  (some (ev.1 + wait, ev.2), fired)

/-- Folding a whole event sequence through the debounced handler,
starting with no pending timer and nothing fired. -/
def debounceRun (wait : Nat) (events : List (Nat × String)) :
    Option (Nat × String) × List (Nat × String) :=
  events.foldl (debounceStep wait) (none, [])

/-- All recomputes that ever fire for an event sequence: those fired
during the sequence plus the final pending timer (which fires once the
input goes quiet). -/
def debounceFired (wait : Nat) (events : List (Nat × String)) : List (Nat × String) :=
  let (pending, fired) := debounceRun wait events
  fired ++ pending.toList

/-- The number of pending scheduled recomputes after an event sequence. -/
def pendingCount (wait : Nat) (events : List (Nat × String)) : Nat :=
  (debounceRun wait events).1.toList.length

/-- `gapsOk wait events`: every event after the first arrives strictly
less than `wait` ms after its predecessor (a burst). -/
def gapsOk (wait : Nat) : List (Nat × String) → Bool
  | [] => true
  | [_] => true
  | (t1, _) :: (t2, v2) :: rest => t2 < t1 + wait && gapsOk wait ((t2, v2) :: rest)

/-!
## Claims C1 and C4: the price matcher on falsy prices and unknown buckets
-/

/-- Counterexample to claim C1: the claim asserts that a listing whose
`price` is present and equal to 0 is accepted by the price matcher for
the "0-50" bucket (0 ≤ 50).  In the code, `if (!price)` fires for a
price of 0 exactly as for an absent price, so the matcher rejects the
"0-50" bucket for a zero-priced listing. -/
theorem zero_price_rejected_by_low_bucket :
    matchesPrice { price := some 0 } "0-50" = false := by decide

/-- Claim C1 (amended): a listing whose price is absent *or* equal to 0
matches only the empty ("any") bucket — the price matcher does not
distinguish a price of zero from an absent price. -/
theorem falsy_price_matches_only_any_bucket (t : Listing) (r : String)
    (h : t.price = none ∨ t.price = some 0) :
    matchesPrice t r = true ↔ r = "" := by
  rcases h with h | h <;> simp [matchesPrice, h]

/-- Witness for C1's amended theorem at the concrete zero-priced listing
and the "100-200" bucket. -/
theorem falsy_price_matches_only_any_bucket_witness :
    (({ price := some 0 } : Listing).price = none ∨
      ({ price := some 0 } : Listing).price = some 0) ∧
    (matchesPrice { price := some 0 } "100-200" = true ↔ "100-200" = "") :=
  ⟨Or.inr rfl,
   falsy_price_matches_only_any_bucket { price := some 0 } "100-200" (Or.inr rfl)⟩

/-- Counterexample to claim C4: the claim asserts that every listing,
whether or not it has a price, is accepted by the price matcher for any
unrecognized non-empty bucket.  A listing with no price reaches the
`if (!price) return range === ''` guard and is rejected before the
permissive `default` branch is ever consulted. -/
theorem priceless_rejected_by_unknown_bucket :
    matchesPrice { name := some "Swamp Walk" } "weekly" = false := by decide

/-- Claim C4 (amended): an unrecognized non-empty bucket matches
unconditionally only for listings whose price is present and nonzero;
listings whose price is absent or zero are rejected by *every*
non-empty bucket, recognized or not. -/
theorem unknown_bucket_permissive_only_for_truthy_price :
    (∀ (t : Listing) (p : Int) (r : String), t.price = some p → p ≠ 0 →
      r ∉ (["0-50", "50-100", "100-200", "200+"] : List String) →
      matchesPrice t r = true) ∧
    (∀ (t : Listing) (r : String), (t.price = none ∨ t.price = some 0) → r ≠ "" →
      matchesPrice t r = false) := by
  constructor
  · intro t p r hp hp0 hr
    unfold matchesPrice
    rw [hp]
    simp only [List.mem_cons, List.mem_singleton] at hr
    push_neg at hr
    obtain ⟨h1, h2, h3, h4⟩ := hr
    simp only [beq_iff_eq, hp0, if_false]
    split <;> simp_all
  · intro t r h hr
    rcases h with h | h <;> simp [matchesPrice, h, hr]

/-- Witness for C4's amended theorem: a $75 listing is accepted by the
unknown bucket "weekly", a priceless listing is rejected by it. -/
theorem unknown_bucket_permissive_only_for_truthy_price_witness :
    (({ price := some 75 } : Listing).price = some 75 ∧ (75 : Int) ≠ 0 ∧
      "weekly" ∉ (["0-50", "50-100", "100-200", "200+"] : List String) ∧
      (({ name := some "Swamp Walk" } : Listing).price = none ∨
        ({ name := some "Swamp Walk" } : Listing).price = some 0) ∧
      "weekly" ≠ "") ∧
    matchesPrice { price := some 75 } "weekly" = true ∧
    matchesPrice { name := some "Swamp Walk" } "weekly" = false :=
  ⟨⟨rfl, by decide, by decide, Or.inl rfl, by decide⟩,
   unknown_bucket_permissive_only_for_truthy_price.1 _ 75 _ rfl (by decide) (by decide),
   unknown_bucket_permissive_only_for_truthy_price.2 _ _ (Or.inl rfl) (by decide)⟩

/-!
## Substring kit: the scanning `containsL` agrees with `List.IsInfix`
-/

theorem startsWithL_iff (p l : List Char) : startsWithL p l = true ↔ p <+: l := by
  induction p generalizing l with
  | nil =>
    simp only [startsWithL]
    exact iff_of_true trivial ⟨l, rfl⟩
  | cons a as ih =>
    cases l with
    | nil =>
      simp only [startsWithL]
      constructor
      · intro h
        exact absurd h (by simp)
      · intro h
        obtain ⟨t, ht⟩ := h
        simp at ht
    | cons c cs =>
      simp only [startsWithL, Bool.and_eq_true, beq_iff_eq, ih]
      constructor
      · rintro ⟨rfl, t, rfl⟩
        exact ⟨t, rfl⟩
      · rintro ⟨t, ht⟩
        simp only [List.cons_append] at ht
        injection ht with h1 h2
        exact ⟨h1, t, h2⟩

theorem containsL_iff (p l : List Char) : containsL p l = true ↔ p <:+: l := by
  induction l with
  | nil =>
    cases p with
    | nil =>
      constructor
      · intro _
        exact ⟨[], [], rfl⟩
      · intro _
        rfl
    | cons a as =>
      simp only [containsL, startsWithL]
      constructor
      · intro h
        exact absurd h (by simp)
      · rintro ⟨s, t, ht⟩
        simp at ht
  | cons c cs ih =>
    simp only [containsL, Bool.or_eq_true, startsWithL_iff, ih]
    constructor
    · rintro (⟨t, ht⟩ | ⟨s, t, ht⟩)
      · exact ⟨[], t, by simpa using ht⟩
      · exact ⟨c :: s, t, by simp [List.cons_append, List.append_assoc] at ht ⊢; simp [ht]⟩
    · rintro ⟨s, t, ht⟩
      cases s with
      | nil =>
        exact Or.inl ⟨t, by simpa using ht⟩
      | cons a as =>
        simp only [List.cons_append, List.append_assoc] at ht
        injection ht with h1 h2
        exact Or.inr ⟨as, t, by simpa using h2⟩

theorem jsIncludes_iff (s sub : String) : jsIncludes s sub = true ↔ sub.data <:+: s.data :=
  containsL_iff sub.data s.data

/-- Lowercasing commutes with space-joining, since a space lowercases
to itself. -/
theorem map_toLower_joinSp (xs : List (List Char)) :
    (joinSp xs).map Char.toLower = joinSp (xs.map (List.map Char.toLower)) := by
  induction xs with
  | nil => rfl
  | cons x rest ih =>
    cases rest with
    | nil => rfl
    | cons y r =>
      simp only [joinSp, List.map_append, List.map_cons]
      rw [show Char.toLower ' ' = ' ' by decide]
      rw [show (y.map Char.toLower :: r.map (List.map Char.toLower)) =
        ((y :: r).map (List.map Char.toLower)) from rfl, ← ih]

theorem jsToLower_jsJoinSpace (l : List String) :
    jsToLower (jsJoinSpace l) = jsJoinSpace (l.map jsToLower) := by
  simp only [jsToLower, jsJoinSpace, map_toLower_joinSp]
  congr 1
  simp [List.map_map, Function.comp_def, jsToLower]

/-!
## Claims C6 and C3: activity matcher on unknown tokens, search matcher
-/

/-- Case-insensitive substring test, as worded by claim C6 ("the token
itself is a case-insensitive substring of L's space-joined tags or of
L's name"): both sides are lowercased before the substring test. -/
def ciIncludes (s sub : String) : Bool :=
  jsIncludes (jsToLower s) (jsToLower sub)

/-- Counterexample to claim C6: the token "Zipline" has no entry in the
category table, and it is a case-insensitive substring of the listing's
name "Zipline Fun", yet the activity matcher rejects it: the matcher
lowercases only the listing's tags and name, never the token, so a
token containing an uppercase letter can never match. -/
theorem activity_matcher_not_ci_on_token :
    activityMap.lookup "Zipline" = none ∧
    ciIncludes (({ name := some "Zipline Fun" } : Listing).name.getD "") "Zipline" = true ∧
    matchesActivity { name := some "Zipline Fun" } "Zipline" = false := by decide

/-- Claim C6 (amended): for every *lowercase* category token with no
entry in the fixed category→keyword table — and the filter pipeline
always lowercases the selector value before calling the matcher — the
activity matcher returns true iff the token is a case-insensitive
substring of the listing's space-joined tags or of its name. -/
theorem unknown_token_matcher_eq_ci_substring (t : Listing) (tok : String)
    (hlk : activityMap.lookup tok = none) (hlc : jsToLower tok = tok) :
    matchesActivity t tok = true ↔
      ciIncludes (jsJoinSpace t.tags) tok = true ∨
      ciIncludes (t.name.getD "") tok = true := by
  unfold matchesActivity ciIncludes
  rw [hlk]
  rw [jsToLower_jsJoinSpace, hlc]
  simp [Bool.or_eq_true]

/-- Witness for C6's amended theorem: the lowercase token "zipline" is
outside the table and matches through the listing's name. -/
theorem unknown_token_matcher_eq_ci_substring_witness :
    activityMap.lookup "zipline" = none ∧ jsToLower "zipline" = "zipline" ∧
    (matchesActivity { name := some "Zipline Fun" } "zipline" = true ↔
      ciIncludes (jsJoinSpace ({ name := some "Zipline Fun" } : Listing).tags) "zipline" = true ∨
      ciIncludes (({ name := some "Zipline Fun" } : Listing).name.getD "") "zipline" = true) :=
  ⟨by decide, by decide,
   unknown_token_matcher_eq_ci_substring { name := some "Zipline Fun" } "zipline"
     (by decide) (by decide)⟩

/-- The candidate text of the search matcher as the spec words it
(claim C3): the space-joined, lowercased concatenation of name,
company, description, and all tags, absent fields contributing the
empty string. -/
def searchCandidateSpec (t : Listing) : String :=
  jsToLower (jsJoinSpace
    ([t.name.getD "", t.company.getD "", t.description.getD ""] ++ t.tags))

/-- Claim C3 (confirmed): for every listing and every lowercased,
trimmed, non-empty query, the search matcher returns true iff the query
is a substring of the candidate text. -/
theorem search_matcher_iff_substring (t : Listing) (q : String)
    (hne : q ≠ "") (hlc : jsToLower q = q) (htr : jsTrim q = q) :
    matchesSearch t q = true ↔ q.data <:+: (searchCandidateSpec t).data := by
  unfold matchesSearch searchCandidateSpec
  exact jsIncludes_iff _ q

/-- Witness for C3 at a concrete listing and the query "kayak". -/
theorem search_matcher_iff_substring_witness :
    ("kayak" : String) ≠ "" ∧ jsToLower "kayak" = "kayak" ∧ jsTrim "kayak" = "kayak" ∧
    (matchesSearch { name := some "Gator Spotting Kayak", tags := ["kayak", "wildlife"] }
        "kayak" = true ↔
      ("kayak" : String).data <:+:
        (searchCandidateSpec
          { name := some "Gator Spotting Kayak", tags := ["kayak", "wildlife"] }).data) :=
  ⟨by decide, by decide, by decide,
   search_matcher_iff_substring
     { name := some "Gator Spotting Kayak", tags := ["kayak", "wildlife"] } "kayak"
     (by decide) (by decide) (by decide)⟩

/-!
## Claim C5: the filter pipeline
-/

/-- The activity constraint alone as a predicate: skipped (true) when
the lowercased selector value is empty, as in `applyFilters`. -/
def predActivity (activityRaw : String) (t : Listing) : Bool :=
  jsToLower activityRaw == "" || matchesActivity t (jsToLower activityRaw)

/-- The price constraint alone as a predicate. -/
def predPrice (priceRange : String) (t : Listing) : Bool :=
  priceRange == "" || matchesPrice t priceRange

/-- The search constraint alone as a predicate: skipped (true) when the
lowercased, trimmed input value is empty, as in `applyFilters`. -/
def predSearch (searchRaw : String) (t : Listing) : Bool :=
  jsTrim (jsToLower searchRaw) == "" || matchesSearch t (jsTrim (jsToLower searchRaw))

/-- A single-matcher pass over a working set: only the activity
constraint. -/
def filterActivity (activityRaw : String) (l : List Listing) : List Listing :=
  l.filter (predActivity activityRaw)

/-- A single-matcher pass: only the price constraint. -/
def filterPrice (priceRange : String) (l : List Listing) : List Listing :=
  l.filter (predPrice priceRange)

/-- A single-matcher pass: only the search constraint. -/
def filterSearch (searchRaw : String) (l : List Listing) : List Listing :=
  l.filter (predSearch searchRaw)

theorem filter_swap (p q : Listing → Bool) (l : List Listing) :
    (l.filter p).filter q = (l.filter q).filter p := by
  simp only [List.filter_filter]
  congr 1
  funext t
  cases p t <;> cases q t <;> rfl

theorem applyFilters_eq_seq (tours : List Listing) (a p s : String) :
    applyFilters tours a p s = filterSearch s (filterPrice p (filterActivity a tours)) := by
  unfold applyFilters filterSearch filterPrice filterActivity passesFilters
  unfold predActivity predPrice predSearch
  simp only [List.filter_filter]
  congr 1
  funext t
  cases jsToLower a == "" || matchesActivity t (jsToLower a) <;>
    cases p == "" || matchesPrice t p <;>
    cases jsTrim (jsToLower s) == "" || matchesSearch t (jsTrim (jsToLower s)) <;> rfl

/-- Claim C5 (confirmed): the filter pipeline includes a listing iff it
is in the working set and passes every matcher whose (normalised)
filter value is non-empty; the result preserves the working set's
relative order (it is a sublist); and applying the three single-matcher
passes in any of the six orders yields the same subset. -/
theorem filter_pipeline_spec (tours : List Listing) (a p s : String) :
    (∀ t, t ∈ applyFilters tours a p s ↔
      t ∈ tours ∧
      ((jsToLower a = "" ∨ matchesActivity t (jsToLower a) = true) ∧
       (p = "" ∨ matchesPrice t p = true) ∧
       (jsTrim (jsToLower s) = "" ∨ matchesSearch t (jsTrim (jsToLower s)) = true))) ∧
    (applyFilters tours a p s).Sublist tours ∧
    filterSearch s (filterPrice p (filterActivity a tours)) = applyFilters tours a p s ∧
    filterPrice p (filterSearch s (filterActivity a tours)) = applyFilters tours a p s ∧
    filterSearch s (filterActivity a (filterPrice p tours)) = applyFilters tours a p s ∧
    filterActivity a (filterSearch s (filterPrice p tours)) = applyFilters tours a p s ∧
    filterPrice p (filterActivity a (filterSearch s tours)) = applyFilters tours a p s ∧
    filterActivity a (filterPrice p (filterSearch s tours)) = applyFilters tours a p s := by
  refine ⟨?_, ?_, ?_, ?_, ?_, ?_, ?_, ?_⟩
  · intro t
    unfold applyFilters passesFilters
    simp only [List.mem_filter, Bool.and_eq_true, Bool.or_eq_true, beq_iff_eq]
  · unfold applyFilters
    exact List.filter_sublist _
  all_goals rw [applyFilters_eq_seq]
  all_goals unfold filterActivity filterPrice filterSearch
  · exact filter_swap (predSearch s) (predPrice p) (tours.filter (predActivity a))
  · rw [filter_swap (predPrice p) (predActivity a) tours]
  · rw [filter_swap (predSearch s) (predActivity a) (tours.filter (predPrice p)),
      filter_swap (predPrice p) (predActivity a) tours]
  · rw [filter_swap (predSearch s) (predActivity a) tours,
      filter_swap (predSearch s) (predPrice p) (tours.filter (predActivity a))]
  · rw [filter_swap (predSearch s) (predPrice p) tours,
      filter_swap (predSearch s) (predActivity a) (tours.filter (predPrice p)),
      filter_swap (predPrice p) (predActivity a) tours]

/-!
## Claim C7: description truncation
-/

theorem head?_dropWhile_not (p : Char → Bool) (l : List Char) (c : Char)
    (h : (l.dropWhile p).head? = some c) : p c = false := by
  induction l with
  | nil => simp [List.dropWhile] at h
  | cons x xs ih =>
    by_cases hx : p x
    · simp only [List.dropWhile, hx] at h
      exact ih h
    · simp only [List.dropWhile, hx] at h
      simp only [List.head?] at h
      injection h with h
      subst h
      simpa using hx

/-- Trailing-whitespace-only trimming, as claim C7 words it ("the first
100 characters with only trailing whitespace trimmed"). -/
def trimEndSpec (s : String) : String :=
  ⟨(s.data.reverse.dropWhile isJsSpace).reverse⟩

/-- A 101-character description starting with a space. -/
def spaceDesc : String := ⟨' ' :: List.replicate 100 'a'⟩

/-- Counterexample to claim C7: on a 101-character description starting
with a space, `truncate` — which calls `.trim()` — removes the *leading*
space as well, so the result is not "the first 100 characters with only
trailing whitespace trimmed" followed by the ellipsis, and it shows 99
visible characters, not 100 (total length 102, not 103). -/
theorem truncate_also_trims_leading :
    spaceDesc.data.length = 101 ∧
    truncate spaceDesc 100 ≠ trimEndSpec ⟨spaceDesc.data.take 100⟩ ++ "..." ∧
    (truncate spaceDesc 100).data.length ≠ 103 := by decide

/-- Claim C7 (amended): for a description longer than 100 characters
the rendered description is the first 100 characters with surrounding
whitespace trimmed from *both* ends, followed by the ellipsis marker,
so no whitespace stands immediately before the ellipsis (but fewer than
100 visible characters may remain); descriptions of length at most 100
render unchanged. -/
theorem truncate_spec (s : String) :
    (100 < s.data.length →
      truncate s 100 = jsTrim ⟨s.data.take 100⟩ ++ "..." ∧
      ∀ c, (jsTrim ⟨s.data.take 100⟩).data.getLast? = some c → isJsSpace c = false) ∧
    (s.data.length ≤ 100 → truncate s 100 = s) := by
  constructor
  · intro hlen
    have hne : s ≠ "" := by
      intro h
      subst h
      simp at hlen
    constructor
    · unfold truncate
      rw [if_neg (by simpa using hne), if_neg (by omega)]
    · intro c hc
      unfold jsTrim at hc
      rw [List.getLast?_reverse] at hc
      exact head?_dropWhile_not isJsSpace _ c hc
  · intro hlen
    unfold truncate
    by_cases h : s = ""
    · subst h
      rw [if_pos (by simp)]
    · rw [if_neg (by simpa using h), if_pos hlen]

/-- A 101-character description with no whitespace. -/
def longDesc : String := ⟨List.replicate 101 'b'⟩

/-- Witness for C7's amended theorem: the long branch at a concrete
101-character description and the short branch at "abc". -/
theorem truncate_spec_witness :
    100 < longDesc.data.length ∧
    truncate longDesc 100 = jsTrim ⟨longDesc.data.take 100⟩ ++ "..." ∧
    (("abc" : String).data.length ≤ 100 ∧ truncate "abc" 100 = "abc") :=
  ⟨by decide, ((truncate_spec longDesc).1 (by decide)).1,
   by decide, (truncate_spec "abc").2 (by decide)⟩

/-!
## Claim C8: duration cleaning
-/

/-- Collapsing each run of consecutive newlines to a single space, as
claim C8 words it ("embedded line breaks (including consecutive runs)
collapsed to single spaces").  Processed right to left; the Boolean
records whether the output already starts inside a newline run. -/
def collapseNl (l : List Char) : List Char :=
  (l.foldr
    (fun c acc =>
      if c == '\n' then (if acc.1 then acc else (true, ' ' :: acc.2))
      else (false, c :: acc.2))
    (false, [])).2

/-- Stripping one `Duration` label word (with its trailing whitespace)
only at the very start of the text, as claim C8 words it ("only a
leading Duration label word stripped"). -/
def stripLeadingDurationSpec (l : List Char) : List Char :=
  match matchCI durationPat l with
  | some rest => rest.dropWhile isJsSpace
  | none => l

/-- The duration-cleaning transform exactly as claim C8 describes it:
leading label stripped, newline runs collapsed to single spaces,
surrounding whitespace trimmed. -/
def cleanDurationClaim (s : String) : String :=
  jsTrim ⟨collapseNl (stripLeadingDurationSpec s.data)⟩

/-- Counterexample to claim C8: the code's regex `/Duration\s*/gi` is
global, so an occurrence of "Duration" in the middle of the text is
also stripped (the claim says it is preserved), and `/\n/g → ' '`
replaces each newline separately, so a run of two newlines becomes two
spaces, not one. -/
theorem cleanDuration_counterexample :
    cleanDuration "2h Duration tour" = "2h tour" ∧
    cleanDurationClaim "2h Duration tour" = "2h Duration tour" ∧
    cleanDuration "a\n\nb" = ⟨['a', ' ', ' ', 'b']⟩ ∧
    cleanDurationClaim "a\n\nb" = "a b" := by
  refine ⟨?_, ?_, ?_, ?_⟩ <;>
    simp [cleanDuration, cleanDurationClaim, stripDurAll, collapseNl,
      stripLeadingDurationSpec, matchCI, durationPat, isJsSpace, nlToSpace, jsTrim,
      List.dropWhile]

/-- The first case-insensitive occurrence of `Duration` in the text:
`some (pre, post)` splits the text into the part before the occurrence
and the part after the occurrence and its trailing whitespace run. -/
def findMatch : List Char → Option (List Char × List Char)
  | [] => none
  | c :: cs =>
    match matchCI durationPat (c :: cs) with
    | some rest => some ([], rest.dropWhile isJsSpace)
    | none =>
      match findMatch cs with
      | some (pre, post) => some (c :: pre, post)
      | none => none

theorem findMatch_post_lt {l pre post : List Char} (h : findMatch l = some (pre, post)) :
    post.length < l.length := by
  induction l generalizing pre with
  | nil => simp [findMatch] at h
  | cons c cs ih =>
    simp only [findMatch] at h
    cases hm : matchCI durationPat (c :: cs) with
    | some rest =>
      rw [hm] at h
      injection h with h
      injection h with h1 h2
      subst h2
      have hlen := matchCI_length hm
      have hdrop := length_dropWhile_le isJsSpace rest
      simp only [durationPat, List.length_cons] at hlen ⊢
      omega
    | none =>
      rw [hm] at h
      cases hf : findMatch cs with
      | some pp =>
        rw [hf] at h
        injection h with h
        injection h with h1 h2
        subst h2
        have := @ih pp.1 (by rw [hf])
        simp only [List.length_cons]
        omega
      | none =>
        rw [hf] at h
        simp at h

/-- Removing every occurrence found by `findMatch`, front to back:
the specification-side formulation of global label stripping for the
amended claim C8. -/
def stripSpec (l : List Char) : List Char :=
  match h : findMatch l with
  | some (pre, post) => pre ++ stripSpec post
  | none => l
termination_by l.length
decreasing_by exact findMatch_post_lt h

theorem stripSpec_of_some {l pre post : List Char} (h : findMatch l = some (pre, post)) :
    stripSpec l = pre ++ stripSpec post := by
  conv_lhs => rw [stripSpec.eq_def]
  split
  · rename_i pre' post' heq
    rw [h] at heq
    injection heq with heq
    injection heq with h1 h2
    rw [h1, h2]
  · rename_i heq
    rw [h] at heq
    exact absurd heq (by simp)

theorem stripSpec_of_none {l : List Char} (h : findMatch l = none) : stripSpec l = l := by
  conv_lhs => rw [stripSpec.eq_def]
  split
  · rename_i pre' post' heq
    rw [h] at heq
    exact absurd heq (by simp)
  · rfl

theorem stripDurAll_nil : stripDurAll [] = [] := by
  simp [stripDurAll]

theorem stripDurAll_cons_some {c : Char} {cs rest : List Char}
    (h : matchCI durationPat (c :: cs) = some rest) :
    stripDurAll (c :: cs) = stripDurAll (rest.dropWhile isJsSpace) := by
  conv_lhs => rw [stripDurAll.eq_def]
  split
  · rename_i heq
    exact absurd heq (by simp)
  · rename_i c' cs' heq
    injection heq with h1 h2
    subst h1
    subst h2
    split
    · rename_i rest' heq2
      rw [h] at heq2
      injection heq2 with heq2
      rw [heq2]
    · rename_i heq2
      rw [h] at heq2
      exact absurd heq2 (by simp)

theorem stripDurAll_cons_none {c : Char} {cs : List Char}
    (h : matchCI durationPat (c :: cs) = none) :
    stripDurAll (c :: cs) = c :: stripDurAll cs := by
  conv_lhs => rw [stripDurAll.eq_def]
  split
  · rename_i heq
    exact absurd heq (by simp)
  · rename_i c' cs' heq
    injection heq with h1 h2
    subst h1
    subst h2
    split
    · rename_i rest' heq2
      rw [h] at heq2
      exact absurd heq2 (by simp)
    · rfl

/-- The left-to-right scanner of the source regex replace agrees with
the find-first-occurrence formulation. -/
theorem stripDurAll_eq_stripSpec (l : List Char) : stripDurAll l = stripSpec l := by
  induction l using stripDurAll.induct with
  | case1 => rw [stripDurAll_nil, stripSpec_of_none (by simp [findMatch])]
  | case2 c cs rest hm ih =>
    rw [stripDurAll_cons_some hm, ih,
      stripSpec_of_some (show findMatch (c :: cs) =
        some ([], rest.dropWhile isJsSpace) by simp [findMatch, hm])]
    simp
  | case3 c cs hm ih =>
    rw [stripDurAll_cons_none hm, ih]
    cases hf : findMatch cs with
    | some pp =>
      obtain ⟨pre, post⟩ := pp
      rw [stripSpec_of_some hf,
        stripSpec_of_some (show findMatch (c :: cs) =
          some (c :: pre, post) by simp [findMatch, hm, hf])]
      rfl
    | none =>
      rw [stripSpec_of_none hf,
        stripSpec_of_none (show findMatch (c :: cs) = none by simp [findMatch, hm, hf])]

/-- Claim C8 (amended): the cleaned duration equals the input with
*every* case-insensitive occurrence of the word "Duration", together
with the whitespace run immediately following it, removed (front to
back, without rescanning the replaced text), each embedded line break
replaced by a single space (a run of k line breaks yields k spaces),
and surrounding whitespace trimmed. -/
theorem cleanDuration_strips_all_occurrences (d : String) :
    cleanDuration d = jsTrim ⟨nlToSpace (stripSpec d.data)⟩ := by
  unfold cleanDuration
  rw [stripDurAll_eq_stripSpec]

/-!
## Claim C9: the debounced search input
-/

/-- During a burst (consecutive gaps strictly below `wait`), folding
from a pending timer set by an event at time `t0` never fires it: each
event arrives before the pending deadline and replaces it. -/
theorem debounceRun_burst (wait : Nat) (evs : List (Nat × String)) (t0 : Nat) (v0 : String)
    (hgap : gapsOk wait ((t0, v0) :: evs) = true) :
    evs.foldl (debounceStep wait) (some (t0 + wait, v0), []) =
      (some ((((t0, v0) :: evs).getLast (by simp)).1 + wait,
        (((t0, v0) :: evs).getLast (by simp)).2), []) := by
  induction evs generalizing t0 v0 with
  | nil => simp
  | cons e rest ih =>
    obtain ⟨t1, v1⟩ := e
    simp only [gapsOk, Bool.and_eq_true, decide_eq_true_eq] at hgap
    obtain ⟨hlt, hrest⟩ := hgap
    simp only [List.foldl_cons]
    rw [show debounceStep wait (some (t0 + wait, v0), []) (t1, v1) =
      (some (t1 + wait, v1), []) by simp [debounceStep]; omega]
    rw [ih t1 v1 hrest]
    congr 1

/-- Claim C9 (confirmed): at most one pending recompute ever exists
(the timer handle is a single slot), and for any non-empty burst of
input events each arriving less than `wait` ms after the previous one,
exactly one recompute fires, `wait` ms after the last event, reading
the last event's value. -/
theorem debounce_single_pending_and_burst (wait : Nat) (evs : List (Nat × String))
    (e0 : Nat × String) (hgap : gapsOk wait (e0 :: evs) = true) :
    pendingCount wait (e0 :: evs) ≤ 1 ∧
    debounceFired wait (e0 :: evs) =
      [(((e0 :: evs).getLast (by simp)).1 + wait, ((e0 :: evs).getLast (by simp)).2)] := by
  constructor
  · unfold pendingCount
    cases (debounceRun wait (e0 :: evs)).1 <;> simp
  · obtain ⟨t0, v0⟩ := e0
    unfold debounceFired debounceRun
    simp only [List.foldl_cons]
    rw [show debounceStep wait (none, []) (t0, v0) = (some (t0 + wait, v0), []) from rfl]
    rw [debounceRun_burst wait evs t0 v0 hgap]
    simp

/-- Witness for C9 at the concrete three-keystroke burst
(0,"a"), (100,"ab"), (250,"abc") with a 300 ms debounce: one recompute,
at 550 ms, with "abc". -/
theorem debounce_single_pending_and_burst_witness :
    gapsOk 300 [(0, "a"), (100, "ab"), (250, "abc")] = true ∧
    pendingCount 300 [(0, "a"), (100, "ab"), (250, "abc")] ≤ 1 ∧
    debounceFired 300 [(0, "a"), (100, "ab"), (250, "abc")] = [(550, "abc")] := by
  refine ⟨by decide, ?_⟩
  have h := debounce_single_pending_and_burst 300 [(100, "ab"), (250, "abc")] (0, "a")
    (by decide)
  simpa using h

/-!
## Claim C2: the renderer does not escape listing text
-/

/-- Claim C2 is violated by the code: `createTourCard` interpolates
`tour.name` (and the other listing fields) into the card markup
verbatim — no HTML escaping or encoding at all (`escapeJs` only
backslash-escapes quotes, and only inside the `onclick` string).  A
listing whose name contains markup therefore injects that markup
structurally into the view: the raw, unencoded `<script>` element
appears as a substring of the rendered card. -/
theorem rendered_card_contains_raw_markup :
    jsIncludes
      (createTourCard
        { id := some "t1", name := some "<script>alert(1)</script>",
          company := some "Swamp Co", description := some "A tour.",
          tags := ["airboat"], price := some 75, image := some "img.jpg",
          bookingLink := some "https://example.com/book" })
      "<script>alert(1)</script>" = true := by decide

/-!
## Claim C10: rendering does not mutate the state
-/

/-- Claim C10 (confirmed): `renderTours` leaves `allTours` and
`filteredTours` exactly as they were (the quality sort acts on a spread
copy), repeated rendering of the resulting state reproduces the same
view, and the sorted sequence in the view is a permutation of
`filteredTours` — the sort exists only in the produced view. -/
theorem renderTours_preserves_state (s : AppState) :
    (renderTours s).1 = s ∧
    (renderTours s).1.allTours = s.allTours ∧
    (renderTours s).1.filteredTours = s.filteredTours ∧
    (renderTours ((renderTours s).1)).2 = (renderTours s).2 ∧
    (sortToursByQuality s.filteredTours).Perm s.filteredTours :=
  ⟨rfl, rfl, rfl, rfl, List.mergeSort_perm _ _⟩

end SkunkApe
